import Mathlib

/-! # Socket-inode to process resolution (`proc/proc_pid.go`)

A shallow embedding of the inode cache of `proc_pid.go` and the properties its
specification states about it.

Modelling conventions.

* A Go `string` / `[]byte` is a sequence of bytes: `GoString := List UInt8`.
* Go `int` is taken to be 64 bits wide.  Every `int` the program computes is a
  converted `uint32`-ranged value, so no conversion wraps; `int` fields are `Int`.
* `uint64` values are `Nat`; where the library code relies on wrap-around
  (`strconv.ParseUint`), the reduction modulo `2^64` is explicit.
* `*ProcInfo` pointers are addresses into an explicit heap, so that the sharing
  of one handle between several inodes and the in-place update performed by
  `loadProcessInfo` are visible.
* The process-table file system is a read-only environment `FS` that is fixed
  for the duration of one call.
* A run-time panic (slice bounds) is the result `none` of an `Option`.
* `log.Warning` only writes to the diagnostic channel and is left out.
* A `lookup` run carries a log of its effects: the file-system reads made by
  `loadProcessInfo`, and one entry for each call of `loadCache`.
* `pc.lock` serialises whole `lookup` calls; one call is modelled as one
  atomic step.
-/

namespace Proc

/-- A Go string: an immutable sequence of bytes. -/
abbrev GoString := List UInt8

/-- The bytes of an ASCII literal of the source text. -/
def ascii (s : String) : GoString := s.toList.map (fun c => UInt8.ofNat c.toNat)

/-! ## Go standard library functions used by the program -/

/-- Go `strings.HasPrefix(s, prefix)`. -/
def HasPrefix (s pre : GoString) : Bool :=
  pre.length ≤ s.length && s.take pre.length == pre

/-- Go `strings.HasSuffix(s, suffix)`. -/
def HasSuffix (s suf : GoString) : Bool :=
  suf.length ≤ s.length && s.drop (s.length - suf.length) == suf

/-- Go slice expression `s[lo:hi]` on a string; `none` is the run-time panic
"slice bounds out of range". -/
def goSlice (s : GoString) (lo hi : Int) : Option GoString :=
  if 0 ≤ lo ∧ lo ≤ hi ∧ hi ≤ (s.length : Int) then
    some ((s.take hi.toNat).drop lo.toNat)
  else none

/-- The largest `uint64`. -/
def maxUint64 : Nat := 2 ^ 64 - 1

/-- The constant `cutoff` of `strconv.ParseUint` for base 10: the smallest
number such that `cutoff * 10 > maxUint64`. -/
def cutoff10 : Nat := maxUint64 / 10 + 1

/-- The digit value `strconv.ParseUint` assigns to a byte: `'0'..'9'`,
`'a'..'z'` and `'A'..'Z'` have one, every other byte is a syntax error. -/
def digitVal (c : UInt8) : Option Nat :=
  if 48 ≤ c.toNat ∧ c.toNat ≤ 57 then some (c.toNat - 48)
  else if 97 ≤ c.toNat ∧ c.toNat ≤ 122 then some (c.toNat - 97 + 10)
  else if 65 ≤ c.toNat ∧ c.toNat ≤ 90 then some (c.toNat - 65 + 10)
  else none

/-- The digit loop of `strconv.ParseUint(s, 10, bitSize)`; `n` is the `uint64`
accumulator and `none` is a returned error (`ErrSyntax` or `ErrRange`). -/
def ParseUint.loop (maxVal : Nat) : GoString → Nat → Option Nat
  | [], n => some n
  | c :: cs, n =>
    match digitVal c with
    | none => none
    | some v =>
      if v ≥ 10 then none
      else if n ≥ cutoff10 then none
      else
        let n10 := (n * 10) % 2 ^ 64
        let n1 := (n10 + v) % 2 ^ 64
        if n1 < n10 ∨ n1 > maxVal then none
        else ParseUint.loop maxVal cs n1

/-- Go `strconv.ParseUint(s, 10, bitSize)` for `bitSize` 32 or 64, the two
calls the program makes; `none` stands for `err != nil`. -/
def ParseUint (s : GoString) (bitSize : Nat) : Option Nat :=
  if s.length < 1 then none
  else ParseUint.loop (2 ^ bitSize - 1) s 0

/-- Go `fmt.Sprintf("%d", n)` for a non-negative integer. -/
def fmtNat (n : Nat) : GoString := ascii (String.mk (Nat.toDigits 10 n))

/-- Go `fmt.Sprintf("%d", i)` for an `int`. -/
def fmtInt (i : Int) : GoString :=
  if i < 0 then ascii "-" ++ fmtNat i.natAbs else fmtNat i.natAbs

/-- Go `path.Join(dir, name)` for a clean directory path and a directory entry
name as `Readdirnames` returns them (non-empty, no slash, neither `.` nor
`..`), where cleaning the joined path changes nothing. -/
def pathJoin (dir name : GoString) : GoString := dir ++ ascii "/" ++ name

/-! ## The environment: the process-table file system -/

/-- What `os.Stat` reports and the program reads: `IsDir()` and the owner
`Sys().(*syscall.Stat_t).Uid` (on Linux `Sys()` always is a `*syscall.Stat_t`,
so the type assertion does not fail). -/
structure FileInfo where
  isDir : Bool
  uid : Nat
deriving DecidableEq, Repr

/-- A state of the file system, as the four operations the program performs
observe it; `none` is a returned error. -/
structure FS where
  /-- The call `os.Open(dir)` followed by `d.Readdirnames(0)`. -/
  readdirnames : GoString → Option (List GoString)
  /-- The call `os.Readlink(path)`. -/
  readlink : GoString → Option GoString
  /-- The call `os.Stat(path)`. -/
  stat : GoString → Option FileInfo
  /-- The call `ioutil.ReadFile(path)`. -/
  readFile : GoString → Option (List UInt8)

/-! ## Data model -/

/-- The struct `ProcInfo`; the defaults are Go's zero values, so that
`{ Pid := pid }` is the composite literal `ProcInfo{Pid: pid}`. -/
structure ProcInfo where
  Uid : Int := 0
  Pid : Int := 0
  loaded : Bool := false
  ExePath : GoString := []
  CmdLine : GoString := []
deriving DecidableEq, Repr

/-- The store of `ProcInfo` objects a `*ProcInfo` points into: `cell a` is the
object at address `a`, and `next` is the first address never allocated. -/
structure Heap where
  next : Nat
  cell : Nat → ProcInfo

/-- Allocation `&ProcInfo{...}`: a fresh address holding `v`. -/
def Heap.alloc (h : Heap) (v : ProcInfo) : Nat × Heap :=
  (h.next, { next := h.next + 1, cell := fun a => if a = h.next then v else h.cell a })

/-- Assignment through a pointer: the object at address `a` becomes `v`. -/
def Heap.store (h : Heap) (a : Nat) (v : ProcInfo) : Heap :=
  { h with cell := fun x => if x = a then v else h.cell x }

/-- A Go `map[uint64]*ProcInfo`: a key is absent (`none`) or bound to the
address of a handle. -/
abbrev CacheMap := Nat → Option Nat

/-- The statement `cmap[inode] = pinfo`. -/
def CacheMap.insert (cmap : CacheMap) (inode pinfo : Nat) : CacheMap :=
  fun k => if k = inode then some pinfo else cmap k

/-- The struct `pidCache` (its mutex is not state of a sequential run). -/
structure pidCache where
  cacheMap : CacheMap

/-- What a run records of its effects: each file-system read made by
`loadProcessInfo`, and each call of `loadCache` (a full rescan of the process
table) as one entry. -/
inductive Event where
  | readlink (path : GoString)
  | readFile (path : GoString)
  | stat (path : GoString)
  | loadCache
deriving DecidableEq, Repr

/-! ## The program -/

/-- The function `readdir`: the names in a directory, and `nil` when the
directory cannot be opened or read. -/
def readdir (fs : FS) (dir : GoString) : List GoString :=
  match fs.readdirnames dir with
  | none => []
  | some names => names

/-- The function `extractSocket`: the inode of a link target of the form
`socket:[<digits>]`, and 0 for every other target.  `none` is a panic of the
slice expression `name[8 : len(name)-1]`. -/
def extractSocket (name : GoString) : Option Nat :=
  if !HasPrefix name (ascii "socket:[") || !HasSuffix name (ascii "]") then
    some 0
  else
    match goSlice name 8 ((name.length : Int) - 1) with
    | none => none
    | some val =>
      match ParseUint val 64 with
      | none => some 0
      | some inode => some inode

/-- The loop of `inodesFromPid` over the names of the descriptor directory;
`inodes` is the slice built so far. -/
def inodesFromPid.loop (fs : FS) (fdpath : GoString) :
    List GoString → List Nat → Option (List Nat)
  | [], inodes => some inodes
  | n :: rest, inodes =>
    match fs.readlink (pathJoin fdpath n) with
    | none => inodesFromPid.loop fs fdpath rest inodes
    | some link =>
      match extractSocket link with
      | none => none
      | some inode =>
        if inode > 0 then inodesFromPid.loop fs fdpath rest (inodes ++ [inode])
        else inodesFromPid.loop fs fdpath rest inodes

/-- The function `inodesFromPid`: the socket inodes of the descriptors of
process `pid`, in listing order. -/
def inodesFromPid (fs : FS) (pid : Int) : Option (List Nat) :=
  let fdpath := ascii "/proc/" ++ fmtInt pid ++ ascii "/fd"
  inodesFromPid.loop fs fdpath (readdir fs fdpath) []

/-- The function `toPid`: the process id a `/proc` entry name denotes, and 0
when the name is not a number or has no descriptor directory. -/
def toPid (fs : FS) (name : GoString) : Int :=
  match ParseUint name 32 with
  | none => 0
  | some pid =>
    let fdpath := ascii "/proc/" ++ fmtNat pid ++ ascii "/fd"
    match fs.stat fdpath with
    | none => 0
    | some fi => if !fi.isDir then 0 else (pid : Int)

/-- The loop of `loadCache` over the names of `/proc`; `cmap` is the map built
so far. -/
def loadCache.loop (fs : FS) : List GoString → CacheMap → Heap → Option (CacheMap × Heap)
  | [], cmap, heap => some (cmap, heap)
  | n :: rest, cmap, heap =>
    let pid := toPid fs n
    if pid ≠ 0 then
      let (pinfo, heap1) := heap.alloc { Pid := pid }
      match inodesFromPid fs pid with
      | none => none
      | some inodes =>
        loadCache.loop fs rest (inodes.foldl (fun m inode => m.insert inode pinfo) cmap) heap1
    else loadCache.loop fs rest cmap heap

/-- The function `loadCache`: a fresh snapshot of the process table. -/
def loadCache (fs : FS) (heap : Heap) : Option (CacheMap × Heap) :=
  loadCache.loop fs (readdir fs (ascii "/proc")) (fun _ => none) heap

/-- The loop `for i, b := range bs { if b == 0 { bs[i] = ' ' } }` of
`loadProcessInfo`, run in place over the indices of `bs`. -/
def replaceNulls (bs : List UInt8) : List UInt8 :=
  (List.range bs.length).foldl
    (fun acc i => if acc.getD i 0 == 0 then acc.set i 32 else acc) bs

/-- The outcome of one `loadProcessInfo` call: the returned flag, the handle
afterwards, and the file-system reads made. -/
structure LoadResult where
  ok : Bool
  pi : ProcInfo
  reads : List Event

/-- The method `loadProcessInfo` on the handle `pi`. -/
def loadProcessInfo (fs : FS) (pi : ProcInfo) : LoadResult :=
  if pi.loaded then { ok := true, pi := pi, reads := [] }
  else
    let exe := ascii "/proc/" ++ fmtInt pi.Pid ++ ascii "/exe"
    let cmdline := ascii "/proc/" ++ fmtInt pi.Pid ++ ascii "/cmdline"
    let dir := ascii "/proc/" ++ fmtInt pi.Pid
    match fs.readlink exe with
    | none => { ok := false, pi := pi, reads := [.readlink exe] }
    | some exePath =>
      match fs.readFile cmdline with
      | none => { ok := false, pi := pi, reads := [.readlink exe, .readFile cmdline] }
      | some bs =>
        let bs := replaceNulls bs
        match fs.stat dir with
        | none =>
          { ok := false, pi := pi, reads := [.readlink exe, .readFile cmdline, .stat dir] }
        | some finfo =>
          { ok := true,
            pi := { pi with Uid := (finfo.uid : Int), ExePath := exePath, CmdLine := bs,
                            loaded := true },
            reads := [.readlink exe, .readFile cmdline, .stat dir] }

/-- The outcome of one `lookup` call: the returned pointer (`none` is `nil`),
the cache and the heap afterwards, and the effects recorded. -/
structure LookupResult where
  ret : Option Nat
  pc : pidCache
  heap : Heap
  log : List Event

/-- The second half of `lookup` (from `pc.cacheMap = loadCache()` on), entered with
the heap and the log the first attempt left. -/
def lookup.rebuild (fs : FS) (heap : Heap) (log : List Event) (inode : Nat) :
    Option LookupResult :=
  match loadCache fs heap with
  | none => none
  | some (cmap, heap1) =>
    let log1 := log ++ [Event.loadCache]
    match cmap inode with
    | none => some { ret := none, pc := { cacheMap := cmap }, heap := heap1, log := log1 }
    | some pi =>
      let r := loadProcessInfo fs (heap1.cell pi)
      if r.ok then
        some { ret := some pi, pc := { cacheMap := cmap }, heap := heap1.store pi r.pi,
               log := log1 ++ r.reads }
      else
        some { ret := none, pc := { cacheMap := cmap }, heap := heap1.store pi r.pi,
               log := log1 ++ r.reads }

/-- The method `lookup` of `pidCache`, run on the cache `pc` with the handle
store `heap`; `none` is a panic. -/
def lookup (fs : FS) (pc : pidCache) (heap : Heap) (inode : Nat) : Option LookupResult :=
  match pc.cacheMap inode with
  | none => lookup.rebuild fs heap [] inode
  | some pi =>
    let r := loadProcessInfo fs (heap.cell pi)
    if r.ok then
      some { ret := some pi, pc := pc, heap := heap.store pi r.pi, log := r.reads }
    else lookup.rebuild fs (heap.store pi r.pi) r.reads inode

/-! ## Notions of the specification -/

/-- The numeric value of a run of decimal digits, most significant first. -/
def decimalValue (ds : GoString) : Nat :=
  ds.foldl (fun acc c => 10 * acc + (c.toNat - 48)) 0

/-- A non-empty run of the bytes `'0'`..`'9'`. -/
def IsDecimal (ds : GoString) : Prop :=
  ds ≠ [] ∧ ∀ c ∈ ds, 48 ≤ c.toNat ∧ c.toNat ≤ 57

instance (ds : GoString) : Decidable (IsDecimal ds) := by
  unfold IsDecimal; infer_instance

/-- The string `s` is `socket:[` followed by a non-empty run of decimal digits
of value `n`, at most `2^64 - 1`, followed by `]`. -/
def IsSocketLink (s : GoString) (n : Nat) : Prop :=
  ∃ ds, s = ascii "socket:[" ++ ds ++ ascii "]" ∧ IsDecimal ds ∧ decimalValue ds = n ∧
    n ≤ 2 ^ 64 - 1

/-- The path of the descriptor directory of process `pid`. -/
def fdDir (pid : Int) : GoString := ascii "/proc/" ++ fmtInt pid ++ ascii "/fd"

/-- The `/proc` entry `name` denotes the live process `pid`: the name is an
unsigned 32-bit decimal number, `pid` is its (non-zero) value, and the
descriptor directory of `pid` exists and is a directory. -/
def LiveEntry (fs : FS) (name : GoString) (pid : Int) : Prop :=
  IsDecimal name ∧ decimalValue name ≤ 2 ^ 32 - 1 ∧ pid = (decimalValue name : Int) ∧ pid ≠ 0 ∧
    ∃ fi, fs.stat (fdDir pid) = some fi ∧ fi.isDir = true

/-- Process `pid` has a descriptor whose link target is `socket:[inode]`. -/
def HasSocketFd (fs : FS) (pid : Int) (inode : Nat) : Prop :=
  ∃ d ∈ readdir fs (fdDir pid), ∃ link,
    fs.readlink (pathJoin (fdDir pid) d) = some link ∧ IsSocketLink link inode

/-- The `/proc` entry `name` makes `loadCache` write the key `k`. -/
def ownsInode (fs : FS) (name : GoString) (k : Nat) : Bool :=
  decide (toPid fs name ≠ 0) &&
    (match inodesFromPid fs (toPid fs name) with
     | some inodes => decide (k ∈ inodes)
     | none => false)

/-- The process id of the last entry of a `/proc` listing that makes `loadCache`
write the key `k`. -/
def lastOwner (fs : FS) (k : Nat) : List GoString → Option Int
  | [] => none
  | n :: rest =>
    match lastOwner fs k rest with
    | some p => some p
    | none => if ownsInode fs n k then some (toPid fs n) else none

/-- The path of the executable link of process `pid`. -/
def exeLink (pid : Int) : GoString := ascii "/proc/" ++ fmtInt pid ++ ascii "/exe"

/-- The path of the command-line file of process `pid`. -/
def cmdlineFile (pid : Int) : GoString := ascii "/proc/" ++ fmtInt pid ++ ascii "/cmdline"

/-- The path of the directory of process `pid`. -/
def procDir (pid : Int) : GoString := ascii "/proc/" ++ fmtInt pid

/-- The three reads of a materialization succeed for process `pid`: the
readlink of its executable link, the read of its command line and the stat of
its directory. -/
def Materializable (fs : FS) (pid : Int) : Prop :=
  (fs.readlink (exeLink pid)).isSome = true ∧ (fs.readFile (cmdlineFile pid)).isSome = true ∧
    (fs.stat (procDir pid)).isSome = true

instance (fs : FS) (pid : Int) : Decidable (Materializable fs pid) := by
  unfold Materializable; infer_instance

/-- What the caller of `lookup` observes: `nil`, or the exported fields `Pid`,
`ExePath`, `CmdLine` and `Uid` of the handle returned. -/
def LookupResult.outcome (r : LookupResult) : Option (Int × GoString × GoString × Int) :=
  r.ret.map (fun a =>
    ((r.heap.cell a).Pid, (r.heap.cell a).ExePath, (r.heap.cell a).CmdLine, (r.heap.cell a).Uid))

/-! ## Concrete process tables and cache states -/

/-- A handle store in which nothing has been allocated. -/
def emptyHeap : Heap := { next := 0, cell := fun _ => {} }

/-- A cache whose snapshot has no entry. -/
def emptyCache : pidCache := { cacheMap := fun _ => none }

/-- The process table of the specification's scenario: one process, pid 100 of
user 1000, whose descriptor 5 links to `socket:[55555]`. -/
def fsOne : FS where
  readdirnames := fun p =>
    if p = ascii "/proc" then some [ascii "100"]
    else if p = ascii "/proc/100/fd" then some [ascii "5"]
    else none
  readlink := fun p =>
    if p = ascii "/proc/100/fd/5" then some (ascii "socket:[55555]")
    else if p = ascii "/proc/100/exe" then some (ascii "/bin/a")
    else none
  stat := fun p =>
    if p = ascii "/proc/100/fd" then some { isDir := true, uid := 1000 }
    else if p = ascii "/proc/100" then some { isDir := true, uid := 1000 }
    else none
  readFile := fun p =>
    if p = ascii "/proc/100/cmdline" then some [97, 0, 45, 120, 0]
    else none

/-- Two processes, 100 and then 200 in listing order, that hold the same socket
55555 (as after a fork); both can be materialized. -/
def fsShared : FS where
  readdirnames := fun p =>
    if p = ascii "/proc" then some [ascii "100", ascii "200"]
    else if p = ascii "/proc/100/fd" then some [ascii "5"]
    else if p = ascii "/proc/200/fd" then some [ascii "3"]
    else none
  readlink := fun p =>
    if p = ascii "/proc/100/fd/5" then some (ascii "socket:[55555]")
    else if p = ascii "/proc/200/fd/3" then some (ascii "socket:[55555]")
    else if p = ascii "/proc/100/exe" then some (ascii "/bin/a")
    else if p = ascii "/proc/200/exe" then some (ascii "/bin/a")
    else none
  stat := fun p =>
    if p = ascii "/proc/100/fd" then some { isDir := true, uid := 1000 }
    else if p = ascii "/proc/200/fd" then some { isDir := true, uid := 1000 }
    else if p = ascii "/proc/100" then some { isDir := true, uid := 1000 }
    else if p = ascii "/proc/200" then some { isDir := true, uid := 1000 }
    else none
  readFile := fun p =>
    if p = ascii "/proc/100/cmdline" then some [97, 0]
    else if p = ascii "/proc/200/cmdline" then some [97, 0]
    else none

/-- Process 100 holds socket 55555, but its executable link cannot be read
(as for a process of another user, or one that is exiting). -/
def fsNoExe : FS where
  readdirnames := fun p =>
    if p = ascii "/proc" then some [ascii "100"]
    else if p = ascii "/proc/100/fd" then some [ascii "5"]
    else none
  readlink := fun p =>
    if p = ascii "/proc/100/fd/5" then some (ascii "socket:[55555]")
    else none
  stat := fun p =>
    if p = ascii "/proc/100/fd" then some { isDir := true, uid := 1000 }
    else if p = ascii "/proc/100" then some { isDir := true, uid := 1000 }
    else none
  readFile := fun p =>
    if p = ascii "/proc/100/cmdline" then some [97, 0]
    else none

/-- A process table without any process. -/
def fsGone : FS where
  readdirnames := fun p => if p = ascii "/proc" then some [] else none
  readlink := fun _ => none
  stat := fun _ => none
  readFile := fun _ => none

/-- The handle of process 100 after a successful materialization. -/
def loadedHandle : ProcInfo :=
  { Uid := 1000, Pid := 100, loaded := true, ExePath := ascii "/bin/a", CmdLine := ascii "a -x " }

/-- The cache after socket 55555 has been resolved to process 100: the
snapshot binds 55555 to the handle at address 0. -/
def hotCache : pidCache := { cacheMap := fun k => if k = 55555 then some 0 else none }

/-- The handle store that goes with `hotCache`: address 0 holds the loaded
handle of process 100. -/
def hotHeap : Heap := { next := 1, cell := fun _ => loadedHandle }

/-- A cache whose snapshot still binds socket 55555 to the handle of a process,
pid 77, that was never materialized. -/
def coldCache : pidCache := { cacheMap := fun k => if k = 55555 then some 0 else none }

/-- The handle store that goes with `coldCache`: address 0 holds the handle of
process 77, not loaded. -/
def coldHeap : Heap := { next := 1, cell := fun _ => { Pid := 77 } }

/-! ## Auxiliary lemmas -/

theorem replaceNulls_step (r : List UInt8) :
    ∀ l : List UInt8,
      (List.range' l.length r.length).foldl
          (fun acc i => if acc.getD i 0 == 0 then acc.set i 32 else acc) (l ++ r)
        = l ++ r.map (fun b => if b = 0 then 32 else b) := by
  induction r with
  | nil => intro l; simp
  | cons x r ih =>
    intro l
    have hstep : (if (l ++ x :: r).getD l.length 0 == 0 then (l ++ x :: r).set l.length 32
        else l ++ x :: r) = (l ++ [if x = 0 then 32 else x]) ++ r := by
      have hget : (l ++ x :: r).getD l.length 0 = x := by
        have h1 : (l ++ x :: r)[l.length]? = some x := by
          rw [List.getElem?_append_right (Nat.le_refl _)]; simp
        rw [List.getD_eq_getElem?_getD, h1]; rfl
      rw [hget]
      by_cases hx : x = 0 <;> simp [hx]
    have hih := ih (l ++ [if x = 0 then 32 else x])
    simp only [List.length_append, List.length_singleton] at hih
    simp only [List.length_cons, List.range'_succ, List.foldl_cons, List.map_cons]
    rw [hstep, hih]
    simp

theorem replaceNulls_eq_map (bs : List UInt8) :
    replaceNulls bs = bs.map (fun b => if b = 0 then 32 else b) := by
  have h := replaceNulls_step bs []
  simpa [replaceNulls, List.range_eq_range'] using h

/-! ## `strconv.ParseUint` -/

theorem foldl_digits_ge (cs : GoString) :
    ∀ n : Nat, n ≤ cs.foldl (fun acc c => 10 * acc + (c.toNat - 48)) n := by
  induction cs with
  | nil => intro n; simp
  | cons c cs ih =>
    intro n
    simp only [List.foldl_cons]
    exact Nat.le_trans (by omega) (ih _)

theorem digitVal_of_digit {c : UInt8} (h : 48 ≤ c.toNat ∧ c.toNat ≤ 57) :
    digitVal c = some (c.toNat - 48) := by
  simp [digitVal, h]

theorem digitVal_not_digit {c : UInt8} (h : ¬ (48 ≤ c.toNat ∧ c.toNat ≤ 57)) :
    digitVal c = none ∨ ∃ v, digitVal c = some v ∧ 10 ≤ v := by
  unfold digitVal
  rw [if_neg h]
  by_cases h1 : 97 ≤ c.toNat ∧ c.toNat ≤ 122
  · right; exact ⟨_, by rw [if_pos h1], by omega⟩
  · rw [if_neg h1]
    by_cases h2 : 65 ≤ c.toNat ∧ c.toNat ≤ 90
    · right; exact ⟨_, by rw [if_pos h2], by omega⟩
    · left; rw [if_neg h2]

theorem ParseUint_loop_spec (maxVal : Nat) (hmax : maxVal < 2 ^ 64) (cs : GoString) :
    ∀ n : Nat, n ≤ maxVal →
      ParseUint.loop maxVal cs n =
        if (∀ c ∈ cs, 48 ≤ c.toNat ∧ c.toNat ≤ 57) ∧
            cs.foldl (fun acc c => 10 * acc + (c.toNat - 48)) n ≤ maxVal
        then some (cs.foldl (fun acc c => 10 * acc + (c.toNat - 48)) n) else none := by
  induction cs with
  | nil => intro n hn; simp [ParseUint.loop, hn]
  | cons c cs ih =>
    intro n hn
    by_cases hd : 48 ≤ c.toNat ∧ c.toNat ≤ 57
    · have hge := foldl_digits_ge cs (10 * n + (c.toNat - 48))
      have hmax' : maxVal < 18446744073709551616 := by simpa using hmax
      simp only [ParseUint.loop, digitVal_of_digit hd, List.foldl_cons, List.forall_mem_cons]
      have hv : ¬ (c.toNat - 48 ≥ 10) := by omega
      rw [if_neg hv]
      by_cases hcut : n ≥ cutoff10
      · rw [if_pos hcut]
        have : cutoff10 = 1844674407370955162 := by decide
        rw [if_neg]
        rintro ⟨_, h⟩
        omega
      · rw [if_neg hcut]
        have hc : cutoff10 = 1844674407370955162 := by decide
        have h10 : (n * 10) % 2 ^ 64 = n * 10 := by
          apply Nat.mod_eq_of_lt
          norm_num
          omega
        simp only [h10]
        by_cases hov : n * 10 + (c.toNat - 48) < 2 ^ 64
        · have h1 : (n * 10 + (c.toNat - 48)) % 2 ^ 64 = 10 * n + (c.toNat - 48) := by
            rw [Nat.mod_eq_of_lt hov]; omega
          rw [h1]
          by_cases hbig : 10 * n + (c.toNat - 48) > maxVal
          · rw [if_pos (Or.inr hbig), if_neg]
            rintro ⟨_, h⟩
            omega
          · rw [if_neg (by omega), ih _ (by omega)]
            simp [hd]
        · have hov' : 18446744073709551616 ≤ n * 10 + (c.toNat - 48) := by
            have : (2:Nat) ^ 64 = 18446744073709551616 := by norm_num
            omega
          have h1 : (n * 10 + (c.toNat - 48)) % 2 ^ 64 < n * 10 := by
            have : (2:Nat) ^ 64 = 18446744073709551616 := by norm_num
            rw [this]
            omega
          rw [if_pos (Or.inl h1), if_neg]
          rintro ⟨_, h⟩
          omega
    · have hnone : ParseUint.loop maxVal (c :: cs) n = none := by
        rcases digitVal_not_digit hd with h | ⟨v, h, hv⟩
        · simp [ParseUint.loop, h]
        · simp [ParseUint.loop, h, hv]
      rw [hnone, if_neg]
      rintro ⟨h, _⟩
      exact hd (h c (List.mem_cons_self _ _))

theorem ParseUint_spec (bitSize : Nat) (hb : bitSize ≤ 64) (s : GoString) :
    ParseUint s bitSize =
      if IsDecimal s ∧ decimalValue s ≤ 2 ^ bitSize - 1 then some (decimalValue s) else none := by
  unfold ParseUint
  by_cases hs : s = []
  · subst hs
    simp [IsDecimal]
  · have hlen : ¬ s.length < 1 := by
      cases s with
      | nil => exact absurd rfl hs
      | cons _ _ => simp
    have hmax : 2 ^ bitSize - 1 < 2 ^ 64 := by
      have := Nat.pow_le_pow_right (show 0 < 2 by decide) hb
      have := Nat.two_pow_pos bitSize
      omega
    rw [if_neg hlen, ParseUint_loop_spec _ hmax s 0 (Nat.zero_le _)]
    simp [IsDecimal, decimalValue, hs]

/-! ## `extractSocket` -/

theorem ascii_socket : ascii "socket:[" = [115, 111, 99, 107, 101, 116, 58, 91] := by decide

theorem ascii_bracket : ascii "]" = [93] := by decide

theorem goSlice_socket (ds : GoString) :
    goSlice (ascii "socket:[" ++ ds ++ ascii "]") 8
      (((ascii "socket:[" ++ ds ++ ascii "]").length : Int) - 1) = some ds := by
  rw [ascii_socket, ascii_bracket]
  have hlen : ((([115, 111, 99, 107, 101, 116, 58, 91] : GoString) ++ ds ++ [93]).length : Int) - 1
      = ((8 + ds.length : Nat) : Int) := by
    simp only [List.length_append, List.length_cons, List.length_nil]
    push_cast
    omega
  rw [hlen]
  unfold goSlice
  rw [if_pos]
  · simp only [Int.toNat_ofNat]
    have h8 : (8 : Int).toNat = 8 := rfl
    rw [h8]
    have : ([115, 111, 99, 107, 101, 116, 58, 91] : GoString) ++ ds ++ [93]
        = ([115, 111, 99, 107, 101, 116, 58, 91] ++ ds) ++ [93] := rfl
    rw [this, List.take_left' (by simp; omega), List.drop_left' (by simp)]
  · simp only [List.length_append, List.length_cons, List.length_nil]
    push_cast
    exact ⟨trivial, by omega, by omega⟩

theorem extractSocket_shape (ds : GoString) :
    extractSocket (ascii "socket:[" ++ ds ++ ascii "]") = some ((ParseUint ds 64).getD 0) := by
  have hp : HasPrefix (ascii "socket:[" ++ ds ++ ascii "]") (ascii "socket:[") = true := by
    rw [ascii_socket, ascii_bracket]
    simp [HasPrefix]
  have hs : HasSuffix (ascii "socket:[" ++ ds ++ ascii "]") (ascii "]") = true := by
    rw [ascii_socket, ascii_bracket]
    simp [HasSuffix]
  unfold extractSocket
  rw [hp, hs, goSlice_socket]
  cases h : ParseUint ds 64 <;> simp [h]

theorem guard_shape (s : GoString) (hp : HasPrefix s (ascii "socket:[") = true)
    (hs : HasSuffix s (ascii "]") = true) :
    ∃ ds, s = ascii "socket:[" ++ ds ++ ascii "]" := by
  rw [ascii_socket] at hp ⊢
  rw [ascii_bracket] at hs ⊢
  simp only [HasPrefix, HasSuffix, Bool.and_eq_true, decide_eq_true_eq, beq_iff_eq,
    List.length_cons, List.length_nil] at hp hs
  obtain ⟨hl, htake⟩ := hp
  obtain ⟨_, hdrop⟩ := hs
  have hsplit : s = [115, 111, 99, 107, 101, 116, 58, 91] ++ s.drop 8 := by
    conv_lhs => rw [← List.take_append_drop 8 s]
    have h8 : (0 + 1 + 1 + 1 + 1 + 1 + 1 + 1 + 1) = 8 := rfl
    rw [h8] at htake
    rw [htake]
  have hne : s.drop 8 ≠ [] := by
    intro hnil
    rw [hnil, List.append_nil] at hsplit
    rw [hsplit] at hdrop
    simp at hdrop
  refine ⟨(s.drop 8).dropLast, ?_⟩
  have hlast : (s.drop 8).getLast hne = 93 := by
    have h1 : s.drop (s.length - 1) = [(s.drop 8).getLast hne] := by
      conv_lhs => rw [hsplit, ← List.dropLast_append_getLast hne, ← List.append_assoc]
      rw [List.drop_left']
      simp only [List.length_append, List.length_cons, List.length_nil, List.length_dropLast,
        List.length_drop]
      have : 0 < (s.drop 8).length := List.length_pos.mpr hne
      simp only [List.length_drop] at this
      omega
    have h0 : (0 + 1) = 1 := rfl
    rw [h0] at hdrop
    rw [hdrop] at h1
    exact (List.cons.inj h1).1.symm
  conv_lhs => rw [hsplit, ← List.dropLast_append_getLast hne, hlast]
  simp

theorem extractSocket_of_link {s : GoString} {n : Nat} (h : IsSocketLink s n) :
    extractSocket s = some n := by
  obtain ⟨ds, rfl, hdec, hval, hle⟩ := h
  rw [extractSocket_shape, ParseUint_spec 64 (Nat.le_refl _), if_pos ⟨hdec, by omega⟩, hval]
  rfl

theorem extractSocket_cases (s : GoString) :
    extractSocket s = some 0 ∨ ∃ n, extractSocket s = some n ∧ IsSocketLink s n := by
  by_cases hg : HasPrefix s (ascii "socket:[") = true ∧ HasSuffix s (ascii "]") = true
  · obtain ⟨ds, rfl⟩ := guard_shape s hg.1 hg.2
    rw [extractSocket_shape, ParseUint_spec 64 (Nat.le_refl _)]
    by_cases hd : IsDecimal ds ∧ decimalValue ds ≤ 2 ^ 64 - 1
    · right
      exact ⟨decimalValue ds, by rw [if_pos hd]; rfl, ds, rfl, hd.1, rfl, hd.2⟩
    · left
      rw [if_neg hd]; rfl
  · left
    unfold extractSocket
    have : (!HasPrefix s (ascii "socket:[") || !HasSuffix s (ascii "]")) = true := by
      cases h1 : HasPrefix s (ascii "socket:[") <;> cases h2 : HasSuffix s (ascii "]") <;>
        simp_all
    rw [if_pos this]

theorem extractSocket_pos_iff (s : GoString) (n : Nat) (hn : 0 < n) :
    extractSocket s = some n ↔ IsSocketLink s n := by
  constructor
  · intro h
    rcases extractSocket_cases s with h0 | ⟨m, hm, hlink⟩
    · rw [h0] at h; injection h with h; omega
    · rw [hm] at h; injection h with h; subst h; exact hlink
  · exact extractSocket_of_link

/-! ## `inodesFromPid` and `toPid` -/

theorem inodesFromPid_loop_spec (fs : FS) (fdpath : GoString) (names : List GoString) :
    ∀ acc : List Nat, ∃ l, inodesFromPid.loop fs fdpath names acc = some (acc ++ l) ∧
      ∀ k, k ∈ l ↔ 0 < k ∧ ∃ d ∈ names, ∃ link,
        fs.readlink (pathJoin fdpath d) = some link ∧ IsSocketLink link k := by
  induction names with
  | nil => intro acc; exact ⟨[], by simp [inodesFromPid.loop], by simp⟩
  | cons n rest ih =>
    intro acc
    cases hlink : fs.readlink (pathJoin fdpath n) with
    | none =>
      obtain ⟨l, hl, hmem⟩ := ih acc
      refine ⟨l, by simp [inodesFromPid.loop, hlink, hl], ?_⟩
      intro k
      rw [hmem k]
      constructor
      · rintro ⟨hk, d, hd, link, h1, h2⟩
        exact ⟨hk, d, List.mem_cons_of_mem _ hd, link, h1, h2⟩
      · rintro ⟨hk, d, hd, link, h1, h2⟩
        rcases List.mem_cons.mp hd with rfl | hd
        · rw [hlink] at h1; cases h1
        · exact ⟨hk, d, hd, link, h1, h2⟩
    | some link =>
      rcases extractSocket_cases link with h0 | ⟨m, hm, hlk⟩
      · obtain ⟨l, hl, hmem⟩ := ih acc
        refine ⟨l, by simp [inodesFromPid.loop, hlink, h0, hl], ?_⟩
        intro k
        rw [hmem k]
        constructor
        · rintro ⟨hk, d, hd, link', h1, h2⟩
          exact ⟨hk, d, List.mem_cons_of_mem _ hd, link', h1, h2⟩
        · rintro ⟨hk, d, hd, link', h1, h2⟩
          rcases List.mem_cons.mp hd with rfl | hd
          · rw [hlink] at h1
            injection h1 with h1
            subst h1
            rw [extractSocket_of_link h2] at h0
            injection h0 with h0
            omega
          · exact ⟨hk, d, hd, link', h1, h2⟩
      · by_cases hpos : m > 0
        · obtain ⟨l, hl, hmem⟩ := ih (acc ++ [m])
          refine ⟨m :: l, by simp [inodesFromPid.loop, hlink, hm, hpos, hl], ?_⟩
          intro k
          rw [List.mem_cons, hmem k]
          constructor
          · rintro (rfl | ⟨hk, d, hd, link', h1, h2⟩)
            · exact ⟨hpos, n, List.mem_cons_self _ _, link, hlink, hlk⟩
            · exact ⟨hk, d, List.mem_cons_of_mem _ hd, link', h1, h2⟩
          · rintro ⟨hk, d, hd, link', h1, h2⟩
            rcases List.mem_cons.mp hd with rfl | hd
            · rw [hlink] at h1
              injection h1 with h1
              subst h1
              rw [extractSocket_of_link h2] at hm
              injection hm with hm
              exact Or.inl hm
            · exact Or.inr ⟨hk, d, hd, link', h1, h2⟩
        · obtain ⟨l, hl, hmem⟩ := ih acc
          refine ⟨l, by simp [inodesFromPid.loop, hlink, hm, hpos, hl], ?_⟩
          intro k
          rw [hmem k]
          constructor
          · rintro ⟨hk, d, hd, link', h1, h2⟩
            exact ⟨hk, d, List.mem_cons_of_mem _ hd, link', h1, h2⟩
          · rintro ⟨hk, d, hd, link', h1, h2⟩
            rcases List.mem_cons.mp hd with rfl | hd
            · rw [hlink] at h1
              injection h1 with h1
              subst h1
              rw [extractSocket_of_link h2] at hm
              injection hm with hm
              omega
            · exact ⟨hk, d, hd, link', h1, h2⟩

theorem inodesFromPid_spec (fs : FS) (pid : Int) :
    ∃ l, inodesFromPid fs pid = some l ∧ ∀ k, k ∈ l ↔ 0 < k ∧ HasSocketFd fs pid k := by
  obtain ⟨l, hl, hmem⟩ := inodesFromPid_loop_spec fs (fdDir pid) (readdir fs (fdDir pid)) []
  exact ⟨l, by simpa [inodesFromPid, fdDir] using hl, hmem⟩

theorem fmtInt_natCast (n : Nat) : fmtInt (n : Int) = fmtNat n := by
  have h : ¬ ((n : Int) < 0) := by omega
  simp [fmtInt, h]

theorem toPid_live (fs : FS) (n : GoString) (h : toPid fs n ≠ 0) :
    LiveEntry fs n (toPid fs n) := by
  unfold toPid at h ⊢
  rw [ParseUint_spec 32 (by decide)] at h ⊢
  by_cases hd : IsDecimal n ∧ decimalValue n ≤ 2 ^ 32 - 1
  · rw [if_pos hd] at h ⊢
    simp only at h ⊢
    cases hst : fs.stat (ascii "/proc/" ++ fmtNat (decimalValue n) ++ ascii "/fd") with
    | none => rw [hst] at h; exact absurd rfl h
    | some fi =>
      rw [hst] at h
      simp only at h ⊢
      cases hdir : fi.isDir with
      | false => rw [hdir] at h; exact absurd rfl h
      | true =>
        rw [hdir] at h
        simp only [Bool.not_true, Bool.false_eq_true, if_false] at h ⊢
        refine ⟨hd.1, hd.2, rfl, h, fi, ?_, hdir⟩
        rw [fdDir, fmtInt_natCast]
        exact hst
  · rw [if_neg hd] at h
    exact absurd rfl h

theorem toPid_of_live (fs : FS) (n : GoString) (p : Int) (h : LiveEntry fs n p) :
    toPid fs n = p := by
  obtain ⟨hdec, hle, hp, _, fi, hst, hdir⟩ := h
  subst hp
  rw [fdDir, fmtInt_natCast] at hst
  unfold toPid
  rw [ParseUint_spec 32 (by decide), if_pos ⟨hdec, hle⟩]
  simp only
  rw [hst]
  simp [hdir]

theorem ownsInode_iff (fs : FS) (n : GoString) (k : Nat) :
    ownsInode fs n k = true ↔ 0 < k ∧ ∃ p, LiveEntry fs n p ∧ HasSocketFd fs p k := by
  obtain ⟨l, hl, hmem⟩ := inodesFromPid_spec fs (toPid fs n)
  unfold ownsInode
  rw [hl]
  simp only [Bool.and_eq_true, decide_eq_true_eq]
  constructor
  · rintro ⟨hne, hk⟩
    exact ⟨((hmem k).mp hk).1, _, toPid_live fs n hne, ((hmem k).mp hk).2⟩
  · rintro ⟨hk, p, hlive, hfd⟩
    have hp := toPid_of_live fs n p hlive
    subst hp
    exact ⟨hlive.2.2.2.1, (hmem k).mpr ⟨hk, hfd⟩⟩

/-! ## `loadCache` -/

theorem lastOwner_none (fs : FS) (k : Nat) (names : List GoString) :
    lastOwner fs k names = none ↔ ∀ n ∈ names, ownsInode fs n k = false := by
  induction names with
  | nil => simp [lastOwner]
  | cons n rest ih =>
    simp only [lastOwner, List.forall_mem_cons]
    cases hrest : lastOwner fs k rest with
    | some p =>
      simp only [false_iff, not_and, reduceCtorEq]
      intro _ hall
      rw [ih.mpr hall] at hrest
      cases hrest
    | none =>
      have hall := ih.mp hrest
      cases hown : ownsInode fs n k
      · simpa using hall
      · simp

theorem lastOwner_some (fs : FS) (k : Nat) (names : List GoString) (p : Int)
    (h : lastOwner fs k names = some p) :
    ∃ before n after, names = before ++ n :: after ∧ ownsInode fs n k = true ∧
      toPid fs n = p ∧ ∀ m ∈ after, ownsInode fs m k = false := by
  induction names with
  | nil => simp [lastOwner] at h
  | cons n rest ih =>
    simp only [lastOwner] at h
    cases hrest : lastOwner fs k rest with
    | some q =>
      rw [hrest] at h
      simp only [Option.some.injEq] at h
      subst h
      obtain ⟨before, m, after, hsplit, hown, hpid, hafter⟩ := ih hrest
      exact ⟨n :: before, m, after, by rw [hsplit]; rfl, hown, hpid, hafter⟩
    | none =>
      rw [hrest] at h
      simp only at h
      cases hown : ownsInode fs n k with
      | false => rw [hown] at h; simp at h
      | true =>
        rw [hown] at h
        simp only [if_true, Option.some.injEq] at h
        exact ⟨[], n, rest, rfl, hown, h, (lastOwner_none fs k rest).mp hrest⟩

theorem lastOwner_of_split (fs : FS) (k : Nat) (before : List GoString) (n : GoString)
    (after : List GoString) (hown : ownsInode fs n k = true)
    (hafter : ∀ m ∈ after, ownsInode fs m k = false) :
    lastOwner fs k (before ++ n :: after) = some (toPid fs n) := by
  induction before with
  | nil =>
    simp only [List.nil_append, lastOwner]
    rw [(lastOwner_none fs k after).mpr hafter]
    simp [hown]
  | cons b before ih =>
    show lastOwner fs k (b :: (before ++ n :: after)) = some (toPid fs n)
    simp only [lastOwner]
    rw [ih]

theorem foldl_insert (p : Nat) (l : List Nat) :
    ∀ (cmap : CacheMap) (k : Nat),
      (l.foldl (fun m inode => CacheMap.insert m inode p) cmap) k =
        if k ∈ l then some p else cmap k := by
  induction l with
  | nil => intro cmap k; simp
  | cons i l ih =>
    intro cmap k
    simp only [List.foldl_cons, ih, List.mem_cons]
    by_cases hkl : k ∈ l
    · simp [hkl]
    · by_cases hki : k = i <;> simp [hkl, hki, CacheMap.insert]

theorem loadCache_loop_spec (fs : FS) (names : List GoString) :
    ∀ (cmap : CacheMap) (heap : Heap), (∀ k a, cmap k = some a → a < heap.next) →
      ∃ cmap' heap', loadCache.loop fs names cmap heap = some (cmap', heap') ∧
        (∀ k a, cmap' k = some a → a < heap'.next) ∧
        heap.next ≤ heap'.next ∧
        (∀ a, a < heap.next → heap'.cell a = heap.cell a) ∧
        ∀ k, match lastOwner fs k names with
          | some p => ∃ a, cmap' k = some a ∧ heap'.cell a = { Pid := p }
          | none => cmap' k = cmap k := by
  induction names with
  | nil =>
    intro cmap heap hinv
    exact ⟨cmap, heap, rfl, hinv, Nat.le_refl _, fun _ _ => rfl, fun k => by simp [lastOwner]⟩
  | cons n rest ih =>
    intro cmap heap hinv
    by_cases hpid : toPid fs n ≠ 0
    · obtain ⟨l, hl, _⟩ := inodesFromPid_spec fs (toPid fs n)
      have hinv1 : ∀ k a,
          (l.foldl (fun m inode => CacheMap.insert m inode heap.next) cmap) k = some a →
            a < (heap.alloc { Pid := toPid fs n }).2.next := by
        intro k a hka
        rw [foldl_insert] at hka
        simp only [Heap.alloc]
        by_cases hk : k ∈ l
        · rw [if_pos hk] at hka; injection hka with hka; omega
        · rw [if_neg hk] at hka; have := hinv k a hka; omega
      obtain ⟨cmap', heap', hrun, hinv', hnext, hcell, hkeys⟩ := ih _ _ hinv1
      refine ⟨cmap', heap', ?_, hinv', ?_, ?_, ?_⟩
      · simp only [loadCache.loop, if_pos hpid, Heap.alloc, hl]
        exact hrun
      · simp only [Heap.alloc] at hnext; omega
      · intro a ha
        rw [hcell a (by simp only [Heap.alloc]; omega)]
        simp only [Heap.alloc]
        rw [if_neg (by omega)]
      · intro k
        have hk := hkeys k
        simp only [lastOwner]
        cases hrest : lastOwner fs k rest with
        | some p => rw [hrest] at hk; exact hk
        | none =>
          rw [hrest] at hk
          simp only at hk ⊢
          rw [foldl_insert] at hk
          cases hown : ownsInode fs n k with
          | true =>
            have hmem : k ∈ l := by
              simpa [ownsInode, hl, hpid] using hown
            rw [if_pos hmem] at hk
            simp only [if_true]
            refine ⟨heap.next, hk, ?_⟩
            rw [hcell heap.next (by simp [Heap.alloc])]
            simp [Heap.alloc]
          | false =>
            have hmem : k ∉ l := by
              simpa [ownsInode, hl, hpid] using hown
            rw [if_neg hmem] at hk
            simpa using hk
    · obtain ⟨cmap', heap', hrun, hinv', hnext, hcell, hkeys⟩ := ih cmap heap hinv
      refine ⟨cmap', heap', ?_, hinv', hnext, hcell, ?_⟩
      · simp only [loadCache.loop, if_neg hpid]
        exact hrun
      · intro k
        have hk := hkeys k
        have hown : ownsInode fs n k = false := by
          simp [ownsInode, hpid]
        simp only [lastOwner, hown]
        cases hrest : lastOwner fs k rest with
        | some p => rw [hrest] at hk; exact hk
        | none => rw [hrest] at hk; simpa using hk

theorem loadCache_spec (fs : FS) (heap : Heap) :
    ∃ cmap heap', loadCache fs heap = some (cmap, heap') ∧
      ∀ k, match lastOwner fs k (readdir fs (ascii "/proc")) with
        | some p => ∃ a, cmap k = some a ∧ heap'.cell a = { Pid := p }
        | none => cmap k = none := by
  obtain ⟨cmap', heap', hrun, _, _, _, hkeys⟩ :=
    loadCache_loop_spec fs (readdir fs (ascii "/proc")) (fun _ => none) heap
      (fun _ _ h => by cases h)
  exact ⟨cmap', heap', hrun, hkeys⟩

/-! ## `loadProcessInfo` -/

theorem load_loaded (fs : FS) (pi : ProcInfo) (h : pi.loaded = true) :
    loadProcessInfo fs pi = { ok := true, pi := pi, reads := [] } := by
  simp [loadProcessInfo, h]

theorem load_cases (fs : FS) (pi : ProcInfo) (h : pi.loaded = false) :
    ((loadProcessInfo fs pi).ok = false ∧ (loadProcessInfo fs pi).pi = pi ∧
        ¬ Materializable fs pi.Pid) ∨
    ((loadProcessInfo fs pi).ok = true ∧ Materializable fs pi.Pid ∧
      ∃ exePath bs finfo, fs.readlink (exeLink pi.Pid) = some exePath ∧
        fs.readFile (cmdlineFile pi.Pid) = some bs ∧ fs.stat (procDir pi.Pid) = some finfo ∧
        (loadProcessInfo fs pi).pi =
          { pi with Uid := (finfo.uid : Int), ExePath := exePath, CmdLine := replaceNulls bs,
                    loaded := true }) := by
  unfold loadProcessInfo Materializable exeLink cmdlineFile procDir
  simp only [h, Bool.false_eq_true, if_false]
  cases h1 : fs.readlink (ascii "/proc/" ++ fmtInt pi.Pid ++ ascii "/exe") with
  | none => left; simp
  | some exePath =>
    cases h2 : fs.readFile (ascii "/proc/" ++ fmtInt pi.Pid ++ ascii "/cmdline") with
    | none => left; simp
    | some bs =>
      cases h3 : fs.stat (ascii "/proc/" ++ fmtInt pi.Pid) with
      | none => left; simp
      | some finfo => right; simp

theorem load_ok_loaded (fs : FS) (pi : ProcInfo) (h : (loadProcessInfo fs pi).ok = true) :
    (loadProcessInfo fs pi).pi.loaded = true := by
  cases hl : pi.loaded with
  | true => rw [load_loaded fs pi hl]; exact hl
  | false =>
    rcases load_cases fs pi hl with ⟨hf, _, _⟩ | ⟨_, _, e, bs, fi, _, _, _, hpi⟩
    · rw [hf] at h; cases h
    · rw [hpi]

theorem load_fail_same (fs : FS) (pi : ProcInfo) (h : (loadProcessInfo fs pi).ok = false) :
    (loadProcessInfo fs pi).pi = pi := by
  cases hl : pi.loaded with
  | true => rw [load_loaded fs pi hl]
  | false =>
    rcases load_cases fs pi hl with ⟨_, hsame, _⟩ | ⟨ht, _⟩
    · exact hsame
    · rw [ht] at h; cases h

theorem load_pid (fs : FS) (pi : ProcInfo) : (loadProcessInfo fs pi).pi.Pid = pi.Pid := by
  cases hl : pi.loaded with
  | true => rw [load_loaded fs pi hl]
  | false =>
    rcases load_cases fs pi hl with ⟨_, hsame, _⟩ | ⟨_, _, e, bs, fi, _, _, _, hpi⟩
    · rw [hsame]
    · rw [hpi]

theorem load_count (fs : FS) (pi : ProcInfo) :
    (loadProcessInfo fs pi).reads.count Event.loadCache = 0 := by
  rw [List.count_eq_zero]
  unfold loadProcessInfo
  split
  · simp
  · simp only
    split
    · simp
    · split
      · simp
      · split <;> simp

theorem load_again (fs : FS) (pi : ProcInfo) (h : (loadProcessInfo fs pi).ok = true) :
    loadProcessInfo fs (loadProcessInfo fs pi).pi =
      { ok := true, pi := (loadProcessInfo fs pi).pi, reads := [] } :=
  load_loaded fs _ (load_ok_loaded fs pi h)

theorem store_cell_same (heap : Heap) (a : Nat) (v : ProcInfo) :
    (heap.store a v).cell a = v := by
  simp [Heap.store]

/-! ## `lookup` -/

theorem rebuild_spec (fs : FS) (heap : Heap) (log : List Event) (k : Nat) :
    ∃ r cmap heap1, lookup.rebuild fs heap log k = some r ∧
      loadCache fs heap = some (cmap, heap1) ∧ r.pc.cacheMap = cmap ∧
      match lastOwner fs k (readdir fs (ascii "/proc")) with
      | none => r.ret = none ∧ cmap k = none ∧ r.log = log ++ [Event.loadCache]
      | some p => ∃ a, cmap k = some a ∧ heap1.cell a = { Pid := p } ∧
          r.heap.cell a = (loadProcessInfo fs { Pid := p }).pi ∧
          r.ret = (if (loadProcessInfo fs { Pid := p }).ok = true then some a else none) ∧
          r.log = log ++ [Event.loadCache] ++ (loadProcessInfo fs { Pid := p }).reads := by
  obtain ⟨cmap, heap1, hrun, hkeys⟩ := loadCache_spec fs heap
  have hk := hkeys k
  unfold lookup.rebuild
  rw [hrun]
  simp only
  cases hown : lastOwner fs k (readdir fs (ascii "/proc")) with
  | none =>
    rw [hown] at hk
    simp only at hk
    rw [hk]
    exact ⟨_, cmap, heap1, rfl, rfl, rfl, rfl, hk, rfl⟩
  | some p =>
    rw [hown] at hk
    obtain ⟨a, hka, hcell⟩ := hk
    rw [hka]
    simp only [hcell]
    cases hok : (loadProcessInfo fs { Pid := p }).ok with
    | true =>
      exact ⟨_, cmap, heap1, rfl, rfl, rfl, a, hka, hcell, store_cell_same _ _ _, rfl, rfl⟩
    | false =>
      exact ⟨_, cmap, heap1, rfl, rfl, rfl, a, hka, hcell, store_cell_same _ _ _, rfl, rfl⟩

theorem lookup_first_fails (fs : FS) (pc : pidCache) (heap : Heap) (k : Nat)
    (h : ∀ a, pc.cacheMap k = some a → (loadProcessInfo fs (heap.cell a)).ok = false) :
    ∃ heap0 log0, lookup fs pc heap k = lookup.rebuild fs heap0 log0 k ∧
      log0.count Event.loadCache = 0 := by
  unfold lookup
  cases hmap : pc.cacheMap k with
  | none => exact ⟨heap, [], rfl, rfl⟩
  | some a =>
    have hf := h a hmap
    simp only [hf, Bool.false_eq_true, if_false]
    exact ⟨_, _, rfl, load_count fs _⟩

theorem lastOwner_of_live (fs : FS) (k : Nat) (before : List GoString) (n : GoString)
    (after : List GoString) (p : Int) (hpos : 0 < k) (hlive : LiveEntry fs n p)
    (hfd : HasSocketFd fs p k)
    (hlast : ∀ m ∈ after, ∀ q, LiveEntry fs m q → ¬ HasSocketFd fs q k) :
    lastOwner fs k (before ++ n :: after) = some p := by
  have hown : ownsInode fs n k = true := (ownsInode_iff fs n k).mpr ⟨hpos, p, hlive, hfd⟩
  have hafter : ∀ m ∈ after, ownsInode fs m k = false := by
    intro m hm
    cases hm' : ownsInode fs m k with
    | false => rfl
    | true =>
      obtain ⟨_, q, hq, hqfd⟩ := (ownsInode_iff fs m k).mp hm'
      exact absurd hqfd (hlast m hm q hq)
  rw [lastOwner_of_split fs k before n after hown hafter, toPid_of_live fs n p hlive]

theorem lastOwner_none_of_unowned (fs : FS) (k : Nat) (names : List GoString)
    (h : ∀ n ∈ names, ∀ p, LiveEntry fs n p → ¬ HasSocketFd fs p k) :
    lastOwner fs k names = none := by
  rw [lastOwner_none]
  intro n hn
  cases hm : ownsInode fs n k with
  | false => rfl
  | true =>
    obtain ⟨_, q, hq, hqfd⟩ := (ownsInode_iff fs n k).mp hm
    exact absurd hqfd (h n hn q hq)

theorem load_fresh_ok_iff (fs : FS) (p : Int) :
    (loadProcessInfo fs { Pid := p }).ok = true ↔ Materializable fs p := by
  rcases load_cases fs { Pid := p } rfl with ⟨hf, _, hn⟩ | ⟨ht, hm, _⟩
  · rw [hf]; simp only [Bool.false_eq_true, false_iff]; exact hn
  · rw [ht]; simp only [true_iff]; exact hm

theorem lookup_hit_eq (fs : FS) (pc : pidCache) (heap : Heap) (k a : Nat)
    (hmap : pc.cacheMap k = some a) (hok : (loadProcessInfo fs (heap.cell a)).ok = true) :
    lookup fs pc heap k = some
      { ret := some a, pc := pc, heap := heap.store a (loadProcessInfo fs (heap.cell a)).pi,
        log := (loadProcessInfo fs (heap.cell a)).reads } := by
  unfold lookup
  rw [hmap]
  simp only [hok, if_true]

/-! ## The claims -/

/-- C1. A hit on a handle that materializes: when the current snapshot binds the
inode to a handle and `loadProcessInfo` on that handle returns true, `lookup`
returns that very handle, records no `loadCache` call, and leaves the snapshot
map as it was. -/
theorem lookup_hit_no_rescan (fs : FS) (pc : pidCache) (heap : Heap) (inode a : Nat)
    (hmap : pc.cacheMap inode = some a)
    (hload : (loadProcessInfo fs (heap.cell a)).ok = true) :
    ∃ r, lookup fs pc heap inode = some r ∧ r.ret = some a ∧
      r.log.count Event.loadCache = 0 ∧ r.pc.cacheMap = pc.cacheMap := by
  refine ⟨_, lookup_hit_eq fs pc heap inode a hmap hload, rfl, ?_, rfl⟩
  exact load_count fs _

/-- C1 at a concrete input: the cache that resolved socket 55555 earlier, in a
process table from which the process has gone. -/
theorem lookup_hit_no_rescan_witness :
    ∃ r, lookup fsGone hotCache hotHeap 55555 = some r ∧ r.ret = some 0 ∧
      r.log.count Event.loadCache = 0 ∧ r.pc.cacheMap = hotCache.cacheMap :=
  lookup_hit_no_rescan fsGone hotCache hotHeap 55555 0 (by decide) (by decide)

/-- C6. Memoization: on a handle whose `loaded` flag is set, `loadProcessInfo`
returns true, makes no file-system read, and leaves every field of the handle
unchanged. -/
theorem loadProcessInfo_memoized (fs : FS) (pi : ProcInfo) (h : pi.loaded = true) :
    (loadProcessInfo fs pi).ok = true ∧ (loadProcessInfo fs pi).reads = [] ∧
      (loadProcessInfo fs pi).pi = pi := by
  rw [load_loaded fs pi h]
  exact ⟨rfl, rfl, rfl⟩

/-- C6 at a concrete input: the loaded handle of process 100, in a process
table from which the process has gone. -/
theorem loadProcessInfo_memoized_witness :
    (loadProcessInfo fsGone loadedHandle).ok = true ∧
      (loadProcessInfo fsGone loadedHandle).reads = [] ∧
      (loadProcessInfo fsGone loadedHandle).pi = loadedHandle :=
  loadProcessInfo_memoized fsGone loadedHandle (by decide)

/-- C7. Materialization is all-or-nothing: on a handle that is not loaded,
`loadProcessInfo` returns true exactly when the readlink of `/proc/<pid>/exe`,
the read of `/proc/<pid>/cmdline` and the stat of `/proc/<pid>` all succeed;
when it returns false the handle is unchanged, and when it returns true
`loaded` is set, `Pid` is kept, and `ExePath`, `CmdLine` and `Uid` hold the link
target, the bytes read with nulls replaced, and the owner just read. -/
theorem loadProcessInfo_all_or_nothing (fs : FS) (pi : ProcInfo) (h : pi.loaded = false) :
    ((loadProcessInfo fs pi).ok = true ↔ Materializable fs pi.Pid) ∧
    ((loadProcessInfo fs pi).ok = false → (loadProcessInfo fs pi).pi = pi) ∧
    ((loadProcessInfo fs pi).ok = true →
      ∃ exePath bs finfo, fs.readlink (exeLink pi.Pid) = some exePath ∧
        fs.readFile (cmdlineFile pi.Pid) = some bs ∧ fs.stat (procDir pi.Pid) = some finfo ∧
        (loadProcessInfo fs pi).pi =
          { Uid := (finfo.uid : Int), Pid := pi.Pid, loaded := true, ExePath := exePath,
            CmdLine := bs.map (fun b => if b = 0 then 32 else b) }) := by
  rcases load_cases fs pi h with ⟨hf, hsame, hn⟩ | ⟨ht, hm, e, bs, fi, h1, h2, h3, hpi⟩
  · refine ⟨?_, fun _ => hsame, ?_⟩
    · rw [hf]; simp only [Bool.false_eq_true, false_iff]; exact hn
    · intro ht; rw [hf] at ht; cases ht
  · refine ⟨?_, ?_, fun _ => ⟨e, bs, fi, h1, h2, h3, ?_⟩⟩
    · rw [ht]; simp only [true_iff]; exact hm
    · intro hf; rw [ht] at hf; cases hf
    · rw [hpi, replaceNulls_eq_map]

/-- C7 at a concrete input: the fresh handle of process 100 in the scenario
process table. -/
theorem loadProcessInfo_all_or_nothing_witness :
    ((loadProcessInfo fsOne { Pid := 100 }).ok = true ↔ Materializable fsOne 100) ∧
    ((loadProcessInfo fsOne { Pid := 100 }).ok = false →
      (loadProcessInfo fsOne { Pid := 100 }).pi = { Pid := 100 }) ∧
    ((loadProcessInfo fsOne { Pid := 100 }).ok = true →
      ∃ exePath bs finfo, fsOne.readlink (exeLink 100) = some exePath ∧
        fsOne.readFile (cmdlineFile 100) = some bs ∧ fsOne.stat (procDir 100) = some finfo ∧
        (loadProcessInfo fsOne { Pid := 100 }).pi =
          { Uid := (finfo.uid : Int), Pid := 100, loaded := true, ExePath := exePath,
            CmdLine := bs.map (fun b => if b = 0 then 32 else b) }) :=
  loadProcessInfo_all_or_nothing fsOne { Pid := 100 } rfl

/-- C8. The command line of a successful materialization: when the raw bytes
read from `/proc/<pid>/cmdline` are `bs`, the resulting `CmdLine` has the length
of `bs`, is `bs` with every byte 0x00 replaced by 0x20 and every other byte
unchanged, and contains no null byte. -/
theorem cmdline_nulls_replaced (fs : FS) (pi : ProcInfo) (bs : List UInt8)
    (hl : pi.loaded = false) (hok : (loadProcessInfo fs pi).ok = true)
    (hread : fs.readFile (cmdlineFile pi.Pid) = some bs) :
    (loadProcessInfo fs pi).pi.CmdLine.length = bs.length ∧
      (loadProcessInfo fs pi).pi.CmdLine = bs.map (fun b => if b = 0 then 32 else b) ∧
      (0 : UInt8) ∉ (loadProcessInfo fs pi).pi.CmdLine := by
  rcases load_cases fs pi hl with ⟨hf, _, _⟩ | ⟨_, _, e, bs', fi, _, h2, _, hpi⟩
  · rw [hf] at hok; cases hok
  · rw [hread] at h2
    injection h2 with h2
    subst h2
    rw [hpi, replaceNulls_eq_map]
    refine ⟨by simp, rfl, ?_⟩
    simp only [List.mem_map, not_exists, not_and]
    intro b _ hb
    by_cases hb0 : b = 0
    · rw [if_pos hb0] at hb; exact absurd hb (by decide)
    · rw [if_neg hb0] at hb; exact hb0 hb

/-- C8 at a concrete input: the command line `a\0-x\0` of process 100. -/
theorem cmdline_nulls_replaced_witness :
    (loadProcessInfo fsOne { Pid := 100 }).pi.CmdLine.length = [97, 0, 45, 120, 0].length ∧
      (loadProcessInfo fsOne { Pid := 100 }).pi.CmdLine =
        [97, 0, 45, 120, 0].map (fun b => if b = 0 then 32 else b) ∧
      (0 : UInt8) ∉ (loadProcessInfo fsOne { Pid := 100 }).pi.CmdLine :=
  cmdline_nulls_replaced fsOne { Pid := 100 } [97, 0, 45, 120, 0] rfl (by decide) (by decide)

/-- C9. The function `extractSocket` against its reference definition: on a
string that is `socket:[`, a non-empty run of decimal digits of value `n` at
most `2^64 - 1`, and `]`, it returns `n`; on every other string it returns 0;
the slice `name[8 : len(name)-1]` it takes behind its guard is always within
bounds, so it never panics; and 0 is a value `inodesFromPid` never reports. -/
theorem extractSocket_refines_reference (s : GoString) :
    (∀ n, IsSocketLink s n → extractSocket s = some n) ∧
    ((¬ ∃ n, IsSocketLink s n) → extractSocket s = some 0) ∧
    (HasPrefix s (ascii "socket:[") = true → HasSuffix s (ascii "]") = true →
      ∃ val, goSlice s 8 ((s.length : Int) - 1) = some val) ∧
    (∀ fs pid, ∃ inodes, inodesFromPid fs pid = some inodes ∧ 0 ∉ inodes) := by
  refine ⟨fun n h => extractSocket_of_link h, ?_, ?_, ?_⟩
  · intro hno
    rcases extractSocket_cases s with h0 | ⟨n, _, hlink⟩
    · exact h0
    · exact absurd ⟨n, hlink⟩ hno
  · intro hp hs
    obtain ⟨ds, rfl⟩ := guard_shape s hp hs
    exact ⟨ds, goSlice_socket ds⟩
  · intro fs pid
    obtain ⟨l, hl, hmem⟩ := inodesFromPid_spec fs pid
    refine ⟨l, hl, fun h0 => ?_⟩
    have := ((hmem 0).mp h0).1
    omega

/-- C9 at a concrete input: the link target `socket:[55555]`. -/
theorem extractSocket_refines_reference_witness :
    extractSocket (ascii "socket:[55555]") = some 55555 :=
  (extractSocket_refines_reference (ascii "socket:[55555]")).1 55555
    ⟨ascii "55555", by decide, by decide, by decide, by decide⟩

/-- C10. The snapshot invariant of `loadCache`: it returns a map, and every key
`k` of that map is a non-zero inode bound to a handle that has only `Pid` set
(`loaded` false), where `Pid` is the id of a live process of the `/proc` listing
that has a descriptor linking to `socket:[k]`, and no live process later in the
listing has such a descriptor (the last writer wins). -/
theorem loadCache_snapshot_invariant (fs : FS) (heap : Heap) :
    ∃ cmap heap', loadCache fs heap = some (cmap, heap') ∧
      ∀ k a, cmap k = some a →
        0 < k ∧ ∃ before n after p, readdir fs (ascii "/proc") = before ++ n :: after ∧
          heap'.cell a = { Pid := p } ∧ LiveEntry fs n p ∧ HasSocketFd fs p k ∧
          ∀ m ∈ after, ∀ q, LiveEntry fs m q → ¬ HasSocketFd fs q k := by
  obtain ⟨cmap, heap', hrun, hkeys⟩ := loadCache_spec fs heap
  refine ⟨cmap, heap', hrun, ?_⟩
  intro k a hka
  have hk := hkeys k
  cases hown : lastOwner fs k (readdir fs (ascii "/proc")) with
  | none =>
    rw [hown] at hk
    simp only at hk
    rw [hk] at hka
    cases hka
  | some p =>
    rw [hown] at hk
    obtain ⟨a', hka', hcell⟩ := hk
    rw [hka'] at hka
    injection hka with hka
    subst hka
    obtain ⟨before, n, after, hsplit, hn, hpid, hafter⟩ := lastOwner_some fs k _ p hown
    obtain ⟨hpos, q, hlive, hfd⟩ := (ownsInode_iff fs n k).mp hn
    have hq := toPid_of_live fs n q hlive
    rw [hpid] at hq
    subst hq
    refine ⟨hpos, before, n, after, p, hsplit, hcell, hlive, hfd, ?_⟩
    intro m hm r hr hrfd
    have := hafter m hm
    rw [(ownsInode_iff fs m k).mpr ⟨hpos, r, hr, hrfd⟩] at this
    cases this

/-- C5. Idempotence of `lookup`: in a fixed file-system state, from every cache
state, a `lookup` and a second `lookup` of the same inode right after it both
return, and the caller observes the same outcome: both `nil`, or handles with
the same `Pid`, `ExePath`, `CmdLine` and `Uid`. -/
theorem lookup_idempotent (fs : FS) (pc : pidCache) (heap : Heap) (inode : Nat) :
    ∃ r1 r2, lookup fs pc heap inode = some r1 ∧
      lookup fs r1.pc r1.heap inode = some r2 ∧ r1.outcome = r2.outcome := by
  by_cases hhit : ∃ a, pc.cacheMap inode = some a ∧ (loadProcessInfo fs (heap.cell a)).ok = true
  · obtain ⟨a, hmap, hok⟩ := hhit
    have h1 := lookup_hit_eq fs pc heap inode a hmap hok
    have hok2 : (loadProcessInfo fs
        ((heap.store a (loadProcessInfo fs (heap.cell a)).pi).cell a)).ok = true := by
      rw [store_cell_same, load_again fs _ hok]
    have h2 := lookup_hit_eq fs pc (heap.store a (loadProcessInfo fs (heap.cell a)).pi)
      inode a hmap hok2
    refine ⟨_, _, h1, h2, ?_⟩
    simp only [LookupResult.outcome, Option.map_some', store_cell_same]
    rw [load_again fs _ hok]
  · have hstale : ∀ a, pc.cacheMap inode = some a →
        (loadProcessInfo fs (heap.cell a)).ok = false := by
      intro a hmap
      cases hok : (loadProcessInfo fs (heap.cell a)).ok with
      | false => rfl
      | true => exact absurd ⟨a, hmap, hok⟩ hhit
    obtain ⟨heap0, log0, heq, _⟩ := lookup_first_fails fs pc heap inode hstale
    obtain ⟨r1, cmap, heap1, hr1, _, hpc, hmatch⟩ := rebuild_spec fs heap0 log0 inode
    rw [hr1] at heq
    cases hown : lastOwner fs inode (readdir fs (ascii "/proc")) with
    | none =>
      rw [hown] at hmatch
      obtain ⟨hret, hnone, _⟩ := hmatch
      have hstale2 : ∀ a, r1.pc.cacheMap inode = some a →
          (loadProcessInfo fs (r1.heap.cell a)).ok = false := by
        intro a hmap
        rw [hpc, hnone] at hmap
        cases hmap
      obtain ⟨heap2, log2, heq2, _⟩ := lookup_first_fails fs r1.pc r1.heap inode hstale2
      obtain ⟨r2, _, _, hr2, _, _, hmatch2⟩ := rebuild_spec fs heap2 log2 inode
      rw [hr2] at heq2
      rw [hown] at hmatch2
      refine ⟨r1, r2, heq, heq2, ?_⟩
      simp [LookupResult.outcome, hret, hmatch2.1]
    | some p =>
      rw [hown] at hmatch
      obtain ⟨a, hka, _, hcell, hret, _⟩ := hmatch
      have hmap1 : r1.pc.cacheMap inode = some a := by rw [hpc]; exact hka
      cases hok : (loadProcessInfo fs { Pid := p }).ok with
      | true =>
        rw [hok] at hret
        simp only [if_true] at hret
        have hok1 : (loadProcessInfo fs (r1.heap.cell a)).ok = true := by
          rw [hcell, load_again fs _ hok]
        refine ⟨r1, _, heq, lookup_hit_eq fs r1.pc r1.heap inode a hmap1 hok1, ?_⟩
        simp only [LookupResult.outcome, hret, Option.map_some', store_cell_same]
        rw [hcell, load_again fs _ hok]
      | false =>
        rw [hok] at hret
        simp only [Bool.false_eq_true, if_false] at hret
        have hsame := load_fail_same fs { Pid := p } hok
        have hstale2 : ∀ b, r1.pc.cacheMap inode = some b →
            (loadProcessInfo fs (r1.heap.cell b)).ok = false := by
          intro b hmap
          rw [hmap1] at hmap
          injection hmap with hmap
          subst hmap
          rw [hcell, hsame]
          exact hok
        obtain ⟨heap2, log2, heq2, _⟩ := lookup_first_fails fs r1.pc r1.heap inode hstale2
        obtain ⟨r2, _, _, hr2, _, _, hmatch2⟩ := rebuild_spec fs heap2 log2 inode
        rw [hr2] at heq2
        rw [hown] at hmatch2
        obtain ⟨_, _, _, _, hret2, _⟩ := hmatch2
        rw [hok] at hret2
        simp only [Bool.false_eq_true, if_false] at hret2
        refine ⟨r1, r2, heq, heq2, ?_⟩
        simp [LookupResult.outcome, hret, hret2]

/-- C2, refuted as stated: process 100 is live and its descriptor 5 links to
`socket:[55555]`, the snapshot has no entry for 55555, the executable link of
process 100 cannot be read, and `lookup` returns `nil`. -/
theorem lookup_miss_unreadable_exe_counterexample :
    emptyCache.cacheMap 55555 = none ∧
    ascii "100" ∈ readdir fsNoExe (ascii "/proc") ∧
    LiveEntry fsNoExe (ascii "100") 100 ∧ HasSocketFd fsNoExe 100 55555 ∧
    (lookup fsNoExe emptyCache emptyHeap 55555).map (fun r => r.ret) = some none := by
  refine ⟨rfl, by decide, ?_, ?_, by decide⟩
  · exact ⟨by decide, by decide, by decide, by decide, ⟨true, 1000⟩, by decide, rfl⟩
  · exact ⟨ascii "5", by decide, ascii "socket:[55555]", by decide,
      ascii "55555", by decide, by decide, by decide, by decide⟩

/-- C2, amended. For a non-zero inode that the current snapshot does not contain
and that is the socket of a descriptor of some live process of the `/proc`
listing, `lookup` calls `loadCache` exactly once, the snapshot afterwards is the
map that call returned, and that map binds the inode to a fresh handle of a
process `q`; `lookup` returns this handle when the three reads of its
materialization succeed for `q`, and `nil` when they do not. -/
theorem lookup_miss_rebuilds_once (fs : FS) (pc : pidCache) (heap : Heap) (inode : Nat)
    (n : GoString) (p : Int)
    (habsent : pc.cacheMap inode = none) (hpos : 0 < inode)
    (hn : n ∈ readdir fs (ascii "/proc")) (hlive : LiveEntry fs n p)
    (hfd : HasSocketFd fs p inode) :
    ∃ r cmap heap1 a q, lookup fs pc heap inode = some r ∧
      loadCache fs heap = some (cmap, heap1) ∧ r.pc.cacheMap = cmap ∧
      r.log.count Event.loadCache = 1 ∧
      cmap inode = some a ∧ heap1.cell a = { Pid := q } ∧
      (Materializable fs q → r.ret = some a) ∧ (¬ Materializable fs q → r.ret = none) := by
  have hlk : lookup fs pc heap inode = lookup.rebuild fs heap [] inode := by
    unfold lookup; rw [habsent]
  obtain ⟨r, cmap, heap1, hr, hload, hpc, hmatch⟩ := rebuild_spec fs heap [] inode
  cases hown : lastOwner fs inode (readdir fs (ascii "/proc")) with
  | none =>
    have := (lastOwner_none fs inode _).mp hown n hn
    rw [(ownsInode_iff fs n inode).mpr ⟨hpos, p, hlive, hfd⟩] at this
    cases this
  | some q =>
    rw [hown] at hmatch
    obtain ⟨a, hka, hcell, _, hret, hlog⟩ := hmatch
    refine ⟨r, cmap, heap1, a, q, by rw [hlk, hr], hload, hpc, ?_, hka, hcell, ?_, ?_⟩
    · rw [hlog]
      simp only [List.nil_append, List.count_append, load_count]
      rfl
    · intro hm
      rw [hret, if_pos ((load_fresh_ok_iff fs q).mpr hm)]
    · intro hm
      rw [hret, if_neg (fun h => hm ((load_fresh_ok_iff fs q).mp h))]

/-- C2, amended, at a concrete input: socket 55555 shared by processes 100 and
200, looked up in an empty cache. -/
theorem lookup_miss_rebuilds_once_witness :
    ∃ r cmap heap1 a q, lookup fsShared emptyCache emptyHeap 55555 = some r ∧
      loadCache fsShared emptyHeap = some (cmap, heap1) ∧ r.pc.cacheMap = cmap ∧
      r.log.count Event.loadCache = 1 ∧
      cmap 55555 = some a ∧ heap1.cell a = { Pid := q } ∧
      (Materializable fsShared q → r.ret = some a) ∧
      (¬ Materializable fsShared q → r.ret = none) :=
  lookup_miss_rebuilds_once fsShared emptyCache emptyHeap 55555 (ascii "100") 100 rfl
    (by decide) (by decide)
    ⟨by decide, by decide, by decide, by decide, ⟨true, 1000⟩, by decide, rfl⟩
    ⟨ascii "5", by decide, ascii "socket:[55555]", by decide,
      ascii "55555", by decide, by decide, by decide, by decide⟩

/-- C3, refuted as stated: no process is live, so no live process has a
descriptor for socket 55555, yet on the cache that resolved 55555 earlier (its
handle is loaded) `lookup` returns that handle, not `nil`. -/
theorem lookup_stale_hit_counterexample :
    (∀ n ∈ readdir fsGone (ascii "/proc"), ∀ p, LiveEntry fsGone n p →
      ¬ HasSocketFd fsGone p 55555) ∧
    (lookup fsGone hotCache hotHeap 55555).map (fun r => r.ret) = some (some 0) := by
  refine ⟨?_, by decide⟩
  intro n hn
  have : readdir fsGone (ascii "/proc") = [] := by decide
  rw [this] at hn
  cases hn

/-- C3, amended. For every cache state in which the first attempt does not
succeed (the snapshot does not contain the inode, or `loadProcessInfo` on the
handle it is bound to returns false), and every inode that is not the socket of
any descriptor of any live process, `lookup` returns `nil` and does not
panic. -/
theorem lookup_unowned_not_found (fs : FS) (pc : pidCache) (heap : Heap) (inode : Nat)
    (hstale : ∀ a, pc.cacheMap inode = some a → (loadProcessInfo fs (heap.cell a)).ok = false)
    (hnone : ∀ n ∈ readdir fs (ascii "/proc"), ∀ p, LiveEntry fs n p →
      ¬ HasSocketFd fs p inode) :
    ∃ r, lookup fs pc heap inode = some r ∧ r.ret = none := by
  obtain ⟨heap0, log0, heq, _⟩ := lookup_first_fails fs pc heap inode hstale
  obtain ⟨r, _, _, hr, _, _, hmatch⟩ := rebuild_spec fs heap0 log0 inode
  rw [lastOwner_none_of_unowned fs inode _ hnone] at hmatch
  exact ⟨r, by rw [heq, hr], hmatch.1⟩

/-- C3, amended, at a concrete input: inode 99999, which no process of the
scenario process table holds, looked up in an empty cache. -/
theorem lookup_unowned_not_found_witness :
    ∃ r, lookup fsOne emptyCache emptyHeap 99999 = some r ∧ r.ret = none :=
  lookup_unowned_not_found fsOne emptyCache emptyHeap 99999
    (fun a h => by cases h)
    (by
      intro n hn p hlive hfd
      have hown := (ownsInode_iff fsOne n 99999).mpr ⟨by decide, p, hlive, hfd⟩
      have hall : ∀ m ∈ readdir fsOne (ascii "/proc"), ownsInode fsOne m 99999 = false := by
        decide
      rw [hall n hn] at hown
      cases hown)

/-- C4, refuted as stated: processes 100 and 200 are both live and both hold
socket 55555; process 100 owns the inode, yet `lookup` returns a handle whose
`Pid` is 200, the later entry of the listing. -/
theorem lookup_shared_socket_counterexample :
    ascii "100" ∈ readdir fsShared (ascii "/proc") ∧
    LiveEntry fsShared (ascii "100") 100 ∧ HasSocketFd fsShared 100 55555 ∧
    (lookup fsShared emptyCache emptyHeap 55555).map
      (fun r => r.ret.map (fun a => (r.heap.cell a).Pid)) = some (some 200) := by
  refine ⟨by decide, ?_, ?_, by decide⟩
  · exact ⟨by decide, by decide, by decide, by decide, ⟨true, 1000⟩, by decide, rfl⟩
  · exact ⟨ascii "5", by decide, ascii "socket:[55555]", by decide,
      ascii "55555", by decide, by decide, by decide, by decide⟩

/-- C4, amended. For every cache state in which the first attempt does not
succeed, and every non-zero inode: when `P` is the last live process of the
`/proc` listing that has a descriptor linking to `socket:[inode]`, and the three
reads of the materialization succeed for `P`, `lookup` returns a handle whose
`Pid` is the pid of `P`. -/
theorem lookup_returns_last_owner (fs : FS) (pc : pidCache) (heap : Heap) (inode : Nat)
    (before : List GoString) (n : GoString) (after : List GoString) (p : Int)
    (hstale : ∀ a, pc.cacheMap inode = some a → (loadProcessInfo fs (heap.cell a)).ok = false)
    (hpos : 0 < inode)
    (hsplit : readdir fs (ascii "/proc") = before ++ n :: after)
    (hlive : LiveEntry fs n p) (hfd : HasSocketFd fs p inode)
    (hlast : ∀ m ∈ after, ∀ q, LiveEntry fs m q → ¬ HasSocketFd fs q inode)
    (hmat : Materializable fs p) :
    ∃ r a, lookup fs pc heap inode = some r ∧ r.ret = some a ∧ (r.heap.cell a).Pid = p := by
  obtain ⟨heap0, log0, heq, _⟩ := lookup_first_fails fs pc heap inode hstale
  obtain ⟨r, _, _, hr, _, _, hmatch⟩ := rebuild_spec fs heap0 log0 inode
  rw [hsplit, lastOwner_of_live fs inode before n after p hpos hlive hfd hlast] at hmatch
  obtain ⟨a, _, _, hcell, hret, _⟩ := hmatch
  refine ⟨r, a, by rw [heq, hr], ?_, ?_⟩
  · rw [hret, if_pos ((load_fresh_ok_iff fs p).mpr hmat)]
  · rw [hcell, load_pid]

/-- C4, amended, at a concrete input: socket 55555 of process 100, looked up in
a cache that still binds it to the unloaded handle of the vanished process
77. -/
theorem lookup_returns_last_owner_witness :
    ∃ r a, lookup fsOne coldCache coldHeap 55555 = some r ∧ r.ret = some a ∧
      (r.heap.cell a).Pid = 100 :=
  lookup_returns_last_owner fsOne coldCache coldHeap 55555 [] (ascii "100") [] 100
    (fun _ _ => by
      show (loadProcessInfo fsOne { Pid := 77 }).ok = false
      decide)
    (by decide) (by decide)
    ⟨by decide, by decide, by decide, by decide, ⟨true, 1000⟩, by decide, rfl⟩
    ⟨ascii "5", by decide, ascii "socket:[55555]", by decide,
      ascii "55555", by decide, by decide, by decide, by decide⟩
    (fun _ h => by cases h)
    (by decide)

end Proc
